import Mathlib

/-!
Verification development for the `manifesto` Go library: an in-memory
registry of declarative manifests with a listener-based change-notification
pool, plus a YAML/JSON manifest decoder with an explicit and an
auto-resolved (type-registry) mode.

The definitions below are a shallow embedding of the Go source
(`manifesto.go`, `pool.go`).  Go maps are embedded as association lists
with overwrite-or-insert assignment; the external YAML decoding step
(`yaml.Node.Decode`) is abstracted as a function argument
`Node → Except String Node` (decode this subtree into the target shape,
or fail); a Go panic is embedded as `Except.error`.  Listener dispatch
(one goroutine per listener per call) is instrumented as a list of
`Notification` records, each carrying the registry contents visible to
that listener when it was dispatched.
-/

namespace Manifesto

/-- A YAML/JSON subtree, the payload carried in `spec` / `status` slots.
Sequences and mappings are encoded with explicit cons/nil constructors so
that equality is derivable. -/
inductive Node where
  | null : Node
  | str : String → Node
  | num : Int → Node
  | seqNil : Node
  | seqCons : Node → Node → Node
  | objNil : Node
  | objCons : String → Node → Node → Node
deriving DecidableEq, Repr

/-- `Metadata` from `manifesto.go`: name plus free-form labels. -/
structure Metadata where
  name : String
  labels : List (String × String)
deriving DecidableEq, Repr

/-- `Manifest` from `manifesto.go`.  `Spec`/`Status` are `any` in Go with
zero value `nil`; here `Option Node` with default `none`.  Go `[]error`
is embedded as a list of the error message strings. -/
structure Manifest where
  apiVersion : String
  kind : String
  metadata : Metadata
  spec : Option Node
  status : Option Node
  errors : List String
deriving DecidableEq, Repr

/-- `ResourceKey` from `manifesto.go`: identifies a resource type. -/
structure ResourceKey where
  apiVersion : String
  kind : String
deriving DecidableEq, Repr

/-- `ManifestKey` from `manifesto.go`: primary key for manifests. -/
structure ManifestKey where
  apiVersion : String
  kind : String
  name : String
deriving DecidableEq, Repr

/-- `NewResourceKey` from `manifesto.go`. -/
def NewResourceKey (apiVersion kind : String) : ResourceKey :=
  ⟨apiVersion, kind⟩

/-- `NewManifestKey` from `manifesto.go`. -/
def NewManifestKey (apiVersion kind name : String) : ManifestKey :=
  ⟨apiVersion, kind, name⟩

/-- `(*Manifest).CreateResourceKey` from `manifesto.go`. -/
def Manifest.CreateResourceKey (manifest : Manifest) : ResourceKey :=
  ⟨manifest.apiVersion, manifest.kind⟩

/-- `(*Manifest).CreateKey` from `manifesto.go`. -/
def Manifest.CreateKey (manifest : Manifest) : ManifestKey :=
  ⟨manifest.apiVersion, manifest.kind, manifest.metadata.name⟩

/-- `(*Manifest).Err` from `manifesto.go`: appends an error. -/
def Manifest.Err (manifest : Manifest) (err : String) : Manifest :=
  { manifest with errors := manifest.errors ++ [err] }

/-- `(*Manifest).Error` from `manifesto.go`: appends an error message
(`errors.New(message)` is just the message here). -/
def Manifest.Error (manifest : Manifest) (message : String) : Manifest :=
  { manifest with errors := manifest.errors ++ [message] }

/-! ### Go map embedding

Go maps are embedded as association lists.  `assocSet` mirrors Go's
`m[k] = v` (overwrite if present, insert otherwise), `assocGet` mirrors
`v, ok := m[k]`, `assocDelete` mirrors `delete(m, k)`. -/

def assocContains {α β : Type} [DecidableEq α] (s : List (α × β)) (k : α) : Bool :=
  s.any (fun p => p.1 = k)

def assocGet {α β : Type} [DecidableEq α] (s : List (α × β)) (k : α) : Option β :=
  (s.find? (fun p => p.1 = k)).map (fun p => p.2)

def assocSet {α β : Type} [DecidableEq α] (s : List (α × β)) (k : α) (v : β) : List (α × β) :=
  if assocContains s k then
    s.map (fun p => if p.1 = k then (k, v) else p)
  else
    s ++ [(k, v)]

def assocDelete {α β : Type} [DecidableEq α] (s : List (α × β)) (k : α) : List (α × β) :=
  s.filter (fun p => ¬ p.1 = k)

/-! ### Decoder (`manifesto.go`) -/

/-- `internalManifest` from `manifesto.go`: the envelope as first parsed,
with `spec` and `status` still raw YAML subtrees. -/
structure InternalManifest where
  apiVersion : String
  kind : String
  metadata : Metadata
  spec : Node
  status : Node
  errors : List String
deriving DecidableEq, Repr

/-- `(*internalManifest).CreateResourceKey` from `manifesto.go`. -/
def InternalManifest.CreateResourceKey (manifest : InternalManifest) : ResourceKey :=
  ⟨manifest.apiVersion, manifest.kind⟩

/-- A Go runtime type descriptor (`reflect.Type`), abstracted to a name. -/
abbrev GoType := String

/-- The process-wide registration state (`specTypes` / `statusTypes` maps
in `manifesto.go`), made explicit. -/
structure TypeRegistry where
  specTypes : List (ResourceKey × GoType)
  statusTypes : List (ResourceKey × GoType)
deriving DecidableEq, Repr

/-- The empty registry (no `RegisterType` call has happened). -/
def TypeRegistry.empty : TypeRegistry := ⟨[], []⟩

/-- `RegisterType` from `manifesto.go`: records the types for a
(apiVersion, kind) combination, overwriting any prior entry. -/
def RegisterType (reg : TypeRegistry) (apiVersion kind : String)
    (spec status : GoType) : TypeRegistry :=
  let key := NewResourceKey apiVersion kind
  { specTypes := assocSet reg.specTypes key spec
    statusTypes := assocSet reg.statusTypes key status }

/-- `reflect.New(typ)`: panics when `typ` is the nil `reflect.Type`
(the zero value a failed map lookup yields), otherwise produces a fresh
instance of the type.  The panic is embedded as `Except.error`. -/
def reflectNew (typ : Option GoType) : Except String GoType :=
  match typ with
  | none => Except.error "panic: reflect: New(nil)"
  | some t => Except.ok t

/-- `parseSpecAndStatus` from `manifesto.go`: decodes the `spec` subtree,
then the `status` subtree, into the caller-supplied shapes; the first
failure aborts with a wrapped message.  Both messages name
`reflect.TypeOf(specNode).Name()`, which is `Node`.  The decode step of
the external YAML library is abstracted as the function arguments. -/
def parseSpecAndStatus (specNode statusNode : Node)
    (decodeSpec decodeStatus : Node → Except String Node) :
    Except String (Node × Node) :=
  match decodeSpec specNode with
  | Except.error e => Except.error ("error decoding spec into type Node: " ++ e)
  | Except.ok s =>
    match decodeStatus statusNode with
    | Except.error e => Except.error ("error decoding status into type Node: " ++ e)
    | Except.ok t => Except.ok (s, t)

/-- `parseInternalManifest` from `manifesto.go` (explicit mode): build the
Manifest from the envelope; on payload decode failure append the error
and return with `spec`/`status` still at their zero value. -/
def parseInternalManifest (internal : InternalManifest)
    (decodeSpec decodeStatus : Node → Except String Node) : Manifest :=
  let manifest : Manifest :=
    { apiVersion := internal.apiVersion
      kind := internal.kind
      metadata := internal.metadata
      spec := none
      status := none
      errors := internal.errors }
  match parseSpecAndStatus internal.spec internal.status decodeSpec decodeStatus with
  | Except.error e => manifest.Err e
  | Except.ok (s, t) => { manifest with spec := some s, status := some t }

/-- `autoParseInternalManifest` from `manifesto.go` (auto mode): look up
the registered types for the resource key, appending a Manifest error for
each missing half, then call `reflect.New` on each looked-up type (the
nil type of a failed lookup makes `reflect.New` panic) and decode the
subtrees into the fresh instances.  `decodeAs t` abstracts decoding a
YAML subtree into a fresh instance of registered type `t`. -/
def autoParseInternalManifest (reg : TypeRegistry)
    (decodeAs : GoType → Node → Except String Node)
    (internal : InternalManifest) : Except String Manifest :=
  let manifest : Manifest :=
    { apiVersion := internal.apiVersion
      kind := internal.kind
      metadata := internal.metadata
      spec := none
      status := none
      errors := internal.errors }
  let key := internal.CreateResourceKey
  let specType := assocGet reg.specTypes key
  let manifest := if specType.isSome then manifest
    else manifest.Error "no type has been found to parse spec"
  let statusType := assocGet reg.statusTypes key
  let manifest := if statusType.isSome then manifest
    else manifest.Error "no type has been found to parse status"
  match reflectNew specType with
  | Except.error e => Except.error e
  | Except.ok st =>
    match reflectNew statusType with
    | Except.error e => Except.error e
    | Except.ok tt =>
      match parseSpecAndStatus internal.spec internal.status (decodeAs st) (decodeAs tt) with
      | Except.error e => Except.ok (manifest.Err e)
      | Except.ok (s, t) => Except.ok { manifest with spec := some s, status := some t }

/-! ### Pool (`pool.go`) -/

/-- `Action` from `pool.go`. -/
inductive Action where
  | Created : Action
  | Updated : Action
  | Deleted : Action
deriving DecidableEq, Repr

/-- A Go `Listener` is a function value; `ApplyPartial` compares listeners
by their `fmt.Sprintf` representation, so a listener is embedded as that
representation. -/
abbrev Listener := String

/-- One dispatched listener invocation: which listener, the action and
manifest value it receives, and the registry contents of the pool it can
read during its own invocation (the pool pointer it is handed). -/
structure Notification where
  listener : Listener
  action : Action
  manifest : Manifest
  poolAtDispatch : List (ManifestKey × Manifest)
deriving DecidableEq, Repr

/-- `Pool` from `pool.go` (the `sync.WaitGroup` carries no registry or
listener state and is not part of the embedding). -/
structure Pool where
  manifests : List (ManifestKey × Manifest)
  listeners : List Listener
deriving DecidableEq, Repr

/-- `CreatePool` from `pool.go`. -/
def CreatePool : Pool := ⟨[], []⟩

/-- `(*Pool).Listen` from `pool.go`: appends a listener. -/
def Pool.Listen (pool : Pool) (listener : Listener) : Pool :=
  { pool with listeners := pool.listeners ++ [listener] }

/-- `(*Pool).apply` from `pool.go` (lowercase): dispatches one listener
invocation in a goroutine; the listener receives the pool pointer, the
action and the manifest by value.  Embedded as the `Notification`
record of that dispatch. -/
def Pool.applyOne (pool : Pool) (listener : Listener) (action : Action)
    (manifest : Manifest) : Notification :=
  ⟨listener, action, manifest, pool.manifests⟩

/-- `(*Pool).Apply` from `pool.go`: overwrite-or-insert under the
manifest's key, then dispatch `Updated` (key was present) or `Created`
(key was absent) to every listener.  Returns the new pool and the
dispatched notifications in dispatch order. -/
def Pool.Apply (pool : Pool) (manifest : Manifest) : Pool × List Notification :=
  let key := manifest.CreateKey
  if assocContains pool.manifests key then
    let pool2 : Pool := { pool with manifests := assocSet pool.manifests key manifest }
    (pool2, pool2.listeners.map (fun l => pool2.applyOne l Action.Updated manifest))
  else
    let pool2 : Pool := { pool with manifests := assocSet pool.manifests key manifest }
    (pool2, pool2.listeners.map (fun l => pool2.applyOne l Action.Created manifest))

/-- `(*Pool).ApplyPartial` from `pool.go`: like `Apply`, but in the
`Updated` branch skips every listener whose `fmt.Sprintf` representation
equals the excluded one's; the `Created` branch dispatches to all
listeners. -/
def Pool.ApplyPartial (pool : Pool) (excluded : Listener) (manifest : Manifest) :
    Pool × List Notification :=
  let key := manifest.CreateKey
  let exceptName := excluded
  if assocContains pool.manifests key then
    let pool2 : Pool := { pool with manifests := assocSet pool.manifests key manifest }
    (pool2, (pool2.listeners.filter (fun l => l ≠ exceptName)).map
      (fun l => pool2.applyOne l Action.Updated manifest))
  else
    let pool2 : Pool := { pool with manifests := assocSet pool.manifests key manifest }
    (pool2, pool2.listeners.map (fun l => pool2.applyOne l Action.Created manifest))

/-- `(*Pool).ApplySilent` from `pool.go`: overwrite-or-insert with no
notification code at all (hence the empty dispatch list). -/
def Pool.ApplySilent (pool : Pool) (manifest : Manifest) : Pool × List Notification :=
  ({ pool with manifests := assocSet pool.manifests manifest.CreateKey manifest }, [])

/-- `(*Pool).Delete` from `pool.go`: if the key is present, remove it and
dispatch `Deleted` with the pre-removal manifest to every listener;
otherwise do nothing. -/
def Pool.Delete (pool : Pool) (key : ManifestKey) : Pool × List Notification :=
  match assocGet pool.manifests key with
  | some manifest =>
    let pool2 : Pool := { pool with manifests := assocDelete pool.manifests key }
    (pool2, pool2.listeners.map (fun l => ⟨l, Action.Deleted, manifest, pool2.manifests⟩))
  | none => (pool, [])

/-- `(*Pool).GetByKey` from `pool.go`. -/
def Pool.GetByKey (pool : Pool) (key : ManifestKey) : Option Manifest × Bool :=
  match assocGet pool.manifests key with
  | some manifest => (some manifest, true)
  | none => (none, false)

/-- `(*Pool).Find` from `pool.go`: filter the stored manifests by a test. -/
def Pool.Find (pool : Pool) (test : Manifest → Bool) : List Manifest :=
  (pool.manifests.map (fun p => p.2)).filter test

/-! ### Concrete fixtures (used by witnesses and counterexamples) -/

/-- The manifest of the repository's test fixture `my-manifest-1.yaml`. -/
def mSample : Manifest :=
  { apiVersion := "example.com/v1alpha1"
    kind := "MyManifest"
    metadata := { name := "my-manifest-1", labels := [] }
    spec := none
    status := none
    errors := [] }

/-- The same fixture before payload decoding. -/
def iSample : InternalManifest :=
  { apiVersion := "example.com/v1alpha1"
    kind := "MyManifest"
    metadata := { name := "my-manifest-1", labels := [] }
    spec := Node.objCons "message" (Node.str "hello, world") Node.objNil
    status := Node.null
    errors := [] }

/-- A pool with two listeners and an empty registry. -/
def poolAB : Pool := { manifests := [], listeners := ["A", "B"] }

/-- A pool with two listeners in which `mSample` is already stored. -/
def poolABm : Pool :=
  { manifests := [(mSample.CreateKey, mSample)], listeners := ["A", "B"] }

/-- The Manifest `parseInternalManifest` returns when payload decoding
fails with message `e`: envelope populated, `spec`/`status` at their zero
value, `e` appended to the carried-over error list. -/
def envelopeOnly (internal : InternalManifest) (e : String) : Manifest :=
  { apiVersion := internal.apiVersion
    kind := internal.kind
    metadata := internal.metadata
    spec := none
    status := none
    errors := internal.errors ++ [e] }

/-- Caller-side mutation of a manifest variable: reassigning
`m.Metadata.Name`. -/
def setMetadataName (m : Manifest) (s : String) : Manifest :=
  { m with metadata := { m.metadata with name := s } }

/-! ### Helper lemmas about the Go map embedding -/

theorem assocContains_eq_false_iff {α β : Type} [DecidableEq α]
    {s : List (α × β)} {k : α} :
    assocContains s k = false ↔ ∀ p ∈ s, p.1 ≠ k := by
  simp [assocContains, List.any_eq_false]

theorem assocContains_eq_true_iff {α β : Type} [DecidableEq α]
    {s : List (α × β)} {k : α} :
    assocContains s k = true ↔ ∃ p ∈ s, p.1 = k := by
  simp [assocContains, List.any_eq_true]

theorem find?_eq_none_of_not_contains {α β : Type} [DecidableEq α]
    {s : List (α × β)} {k : α} (h : assocContains s k = false) :
    s.find? (fun p => p.1 = k) = none := by
  rw [List.find?_eq_none]
  intro p hp
  simpa using assocContains_eq_false_iff.mp h p hp

theorem assocGet_eq_none_of_not_contains {α β : Type} [DecidableEq α]
    {s : List (α × β)} {k : α} (h : assocContains s k = false) :
    assocGet s k = none := by
  simp [assocGet, find?_eq_none_of_not_contains h]

theorem map_replace_of_not_contains {α β : Type} [DecidableEq α]
    {s : List (α × β)} {k : α} (v : β) (h : assocContains s k = false) :
    s.map (fun p => if p.1 = k then (k, v) else p) = s := by
  have h' := assocContains_eq_false_iff.mp h
  calc s.map (fun p => if p.1 = k then (k, v) else p)
      = s.map id := List.map_congr_left (fun p hp => by simp [h' p hp])
    _ = s := List.map_id s

theorem find?_map_replace {α β : Type} [DecidableEq α]
    {s : List (α × β)} {k : α} (v : β) (h : assocContains s k = true) :
    (s.map (fun p => if p.1 = k then (k, v) else p)).find?
      (fun p => p.1 = k) = some (k, v) := by
  induction s with
  | nil => simp [assocContains] at h
  | cons a t ih =>
    by_cases ha : a.1 = k
    · simp [ha, List.find?]
    · have ht : assocContains t k = true := by
        rcases assocContains_eq_true_iff.mp h with ⟨p, hp, hpk⟩
        rcases List.mem_cons.mp hp with rfl | hpt
        · exact absurd hpk ha
        · exact assocContains_eq_true_iff.mpr ⟨p, hpt, hpk⟩
      simpa [ha, List.find?] using ih ht

theorem assocGet_assocSet_self {α β : Type} [DecidableEq α]
    (s : List (α × β)) (k : α) (v : β) :
    assocGet (assocSet s k v) k = some v := by
  by_cases h : assocContains s k
  · simp [assocSet, h, assocGet, find?_map_replace v h]
  · have h' : assocContains s k = false := by simpa using h
    simp [assocSet, h', assocGet, List.find?_append,
      find?_eq_none_of_not_contains h', List.find?]

theorem assocContains_assocSet_self {α β : Type} [DecidableEq α]
    (s : List (α × β)) (k : α) (v : β) :
    assocContains (assocSet s k v) k = true := by
  rcases h : (assocSet s k v).find? (fun p => p.1 = k) with _ | p
  · have := assocGet_assocSet_self s k v
    simp [assocGet, h] at this
  · exact assocContains_eq_true_iff.mpr
      ⟨p, List.mem_of_find?_eq_some h, by simpa using List.find?_some h⟩

theorem assocGet_assocDelete_self {α β : Type} [DecidableEq α]
    (s : List (α × β)) (k : α) :
    assocGet (assocDelete s k) k = none := by
  have : (assocDelete s k).find? (fun p => p.1 = k) = none := by
    rw [List.find?_eq_none]
    intro p hp
    have := (List.mem_filter.mp hp).2
    simpa using this
  simp [assocGet, this]

theorem filter_assocSet_absent {α β : Type} [DecidableEq α]
    {s : List (α × β)} {k : α} (v : β) (h : assocContains s k = false) :
    (assocSet s k v).filter (fun p => p.1 = k) = [(k, v)] := by
  have h' := assocContains_eq_false_iff.mp h
  have hfil : s.filter (fun p => p.1 = k) = [] := by
    rw [List.filter_eq_nil_iff]
    intro p hp
    simpa using h' p hp
  simp [assocSet, h, List.filter_append, hfil, List.filter]

theorem filter_assocSet_overwrite {α β : Type} [DecidableEq α]
    {s : List (α × β)} {k : α} (v w : β)
    (hfil : s.filter (fun p => p.1 = k) = [(k, v)]) :
    (assocSet s k w).filter (fun p => p.1 = k) = [(k, w)] := by
  have hc : assocContains s k = true := by
    refine assocContains_eq_true_iff.mpr ⟨(k, v), ?_, rfl⟩
    have : (k, v) ∈ s.filter (fun p => p.1 = k) := by simp [hfil]
    exact (List.mem_filter.mp this).1
  have key : ∀ t : List (α × β),
      (t.map (fun p => if p.1 = k then (k, w) else p)).filter (fun p => p.1 = k)
        = (t.filter (fun p => p.1 = k)).map (fun p => if p.1 = k then (k, w) else p) := by
    intro t
    induction t with
    | nil => simp
    | cons a r ih =>
      by_cases ha : a.1 = k
      · simp [ha, List.filter, List.map, ih]
      · simp [ha, List.filter, List.map, ih]
  simp [assocSet, hc, key s, hfil]

/-! ### Claim theorems: decoder -/

/-- C1: the claim says auto-parse on an unregistered resource key returns a
Manifest with a non-empty error sequence and populated envelope fields.
The code instead panics: the failed lookup yields the nil `reflect.Type`,
and `reflect.New(nil)` panics before the function can return the Manifest
it was building (the appended "no type has been found" errors are
unreachable output).  This theorem evaluates the code at such an input:
whenever no spec type is registered for the resource key, the whole
operation aborts with the `reflect.New(nil)` panic. -/
theorem autoParse_unregistered_panics (reg : TypeRegistry)
    (decodeAs : GoType → Node → Except String Node) (internal : InternalManifest)
    (h : assocGet reg.specTypes internal.CreateResourceKey = none) :
    autoParseInternalManifest reg decodeAs internal
      = Except.error "panic: reflect: New(nil)" := by
  simp [autoParseInternalManifest, h, reflectNew]

/-- C1 witness: the empty registry has no entry for the fixture's resource
key, and auto-parsing the fixture panics. -/
theorem autoParse_unregistered_panics_witness :
    assocGet TypeRegistry.empty.specTypes iSample.CreateResourceKey = none ∧
    autoParseInternalManifest TypeRegistry.empty
        (fun _ _ => Except.ok Node.null) iSample
      = Except.error "panic: reflect: New(nil)" :=
  ⟨rfl, autoParse_unregistered_panics TypeRegistry.empty
    (fun _ _ => Except.ok Node.null) iSample rfl⟩

/-- C8: in explicit mode, a failing spec decode (first conjunct) or a
failing status decode after a succeeding spec decode (second conjunct)
yields a Manifest whose envelope fields are populated, whose error list is
the carried-over list with exactly the specific decode error appended, and
whose `spec`/`status` are still at their zero value; the third conjunct
shows such a Manifest still derives its ManifestKey from the envelope. -/
theorem parse_payload_failure (internal : InternalManifest)
    (decodeSpec decodeStatus : Node → Except String Node) :
    (∀ e, decodeSpec internal.spec = Except.error e →
      parseInternalManifest internal decodeSpec decodeStatus
        = envelopeOnly internal ("error decoding spec into type Node: " ++ e)) ∧
    (∀ s e, decodeSpec internal.spec = Except.ok s →
      decodeStatus internal.status = Except.error e →
      parseInternalManifest internal decodeSpec decodeStatus
        = envelopeOnly internal ("error decoding status into type Node: " ++ e)) ∧
    (∀ e, (envelopeOnly internal e).CreateKey
        = NewManifestKey internal.apiVersion internal.kind internal.metadata.name) := by
  refine ⟨fun e he => ?_, fun s e hs he => ?_, fun e => rfl⟩
  · simp [parseInternalManifest, parseSpecAndStatus, he, Manifest.Err, envelopeOnly]
  · simp [parseInternalManifest, parseSpecAndStatus, hs, he, Manifest.Err, envelopeOnly]

/-- C8 witness: a failing spec decoder on the fixture produces exactly the
envelope-only Manifest with the wrapped error appended. -/
theorem parse_payload_failure_witness :
    parseInternalManifest iSample (fun _ => Except.error "boom")
        (fun _ => Except.ok Node.null)
      = envelopeOnly iSample "error decoding spec into type Node: boom" :=
  (parse_payload_failure iSample (fun _ => Except.error "boom")
    (fun _ => Except.ok Node.null)).1 "boom" rfl

/-- C9: `CreateKey` is a pure projection of (apiVersion, kind, name): two
manifests agreeing on those three fields (so differing at most in labels,
spec, status, or errors) derive equal keys, and two manifests differing in
any of the three derive unequal keys. -/
theorem createKey_pure (m1 m2 : Manifest) :
    (m1.apiVersion = m2.apiVersion ∧ m1.kind = m2.kind ∧
        m1.metadata.name = m2.metadata.name →
      m1.CreateKey = m2.CreateKey) ∧
    ((m1.apiVersion ≠ m2.apiVersion ∨ m1.kind ≠ m2.kind ∨
        m1.metadata.name ≠ m2.metadata.name) →
      m1.CreateKey ≠ m2.CreateKey) := by
  constructor
  · rintro ⟨h1, h2, h3⟩
    simp [Manifest.CreateKey, h1, h2, h3]
  · intro h hk
    simp only [Manifest.CreateKey, ManifestKey.mk.injEq] at hk
    rcases h with h | h | h
    · exact h hk.1
    · exact h hk.2.1
    · exact h hk.2.2

/-- C9 witness: a label-only difference keeps the key; a name difference
changes it. -/
theorem createKey_pure_witness :
    mSample.CreateKey
        = ({ mSample with
              metadata := { mSample.metadata with labels := [("a", "b")] } } :
            Manifest).CreateKey ∧
    mSample.CreateKey ≠ (setMetadataName mSample "other").CreateKey :=
  ⟨(createKey_pure mSample
      { mSample with
        metadata := { mSample.metadata with labels := [("a", "b")] } }).1
    ⟨rfl, rfl, rfl⟩,
   (createKey_pure mSample (setMetadataName mSample "other")).2
    (Or.inr (Or.inr (by decide))) ⟩

/-! ### Claim theorems: pool -/

/-- C2 counterexample: the claim says `ApplyPartial A m` never notifies A,
regardless of whether the key was previously present.  On a pool where the
key is absent (Created branch) the code notifies every listener, including
the excluded one: here `ApplyPartial "A"` dispatches to both "A" and "B". -/
theorem applyPartial_created_notifies_excluded :
    (poolAB.ApplyPartial "A" mSample).2.map (fun n => (n.listener, n.action))
      = [("A", Action.Created), ("B", Action.Created)] := by
  decide

/-- C2 amended: `ApplyPartial a m` skips the listeners equal to `a` only
when m's key is already present (every other listener is notified with
`Updated` and none equal to `a` is notified); when the key is absent,
every listener — the excluded one included — is notified with `Created`. -/
theorem applyPartial_exclusion (pool : Pool) (a : Listener) (m : Manifest) :
    (assocContains pool.manifests m.CreateKey = true →
      (pool.ApplyPartial a m).2.map (fun n => (n.listener, n.action))
        = (pool.listeners.filter (fun l => l ≠ a)).map
            (fun l => (l, Action.Updated))) ∧
    (assocContains pool.manifests m.CreateKey = false →
      (pool.ApplyPartial a m).2.map (fun n => (n.listener, n.action))
        = pool.listeners.map (fun l => (l, Action.Created))) := by
  constructor
  · intro h
    simp [Pool.ApplyPartial, h, Pool.applyOne]
  · intro h
    simp [Pool.ApplyPartial, h, Pool.applyOne]

/-- C2 amended witness: on a pool already holding the fixture's key,
`ApplyPartial "A"` notifies exactly "B", with `Updated`. -/
theorem applyPartial_exclusion_witness :
    (poolABm.ApplyPartial "A" mSample).2.map (fun n => (n.listener, n.action))
      = [("B", Action.Updated)] :=
  ((applyPartial_exclusion poolABm "A" mSample).1 (by decide)).trans (by decide)

/-- C3: applying the same manifest twice in succession on a key that was
absent beforehand dispatches exactly one `Created` notification per
registered listener on the first call, exactly one `Updated` per listener
on the second, and leaves exactly one registry entry for the key. -/
theorem apply_twice (pool : Pool) (m : Manifest)
    (h : assocContains pool.manifests m.CreateKey = false) :
    (pool.Apply m).2.map (fun n => (n.listener, n.action))
        = pool.listeners.map (fun l => (l, Action.Created)) ∧
    ((pool.Apply m).1.Apply m).2.map (fun n => (n.listener, n.action))
        = pool.listeners.map (fun l => (l, Action.Updated)) ∧
    ((pool.Apply m).1.Apply m).1.manifests.filter
        (fun p => p.1 = m.CreateKey) = [(m.CreateKey, m)] := by
  have h2 : assocContains (assocSet pool.manifests m.CreateKey m) m.CreateKey
      = true := assocContains_assocSet_self _ _ _
  refine ⟨?_, ?_, ?_⟩
  · simp [Pool.Apply, h, Pool.applyOne]
  · simp [Pool.Apply, h, h2, Pool.applyOne]
  · simp only [Pool.Apply, h, Bool.false_eq_true, if_false, h2, if_true]
    exact filter_assocSet_overwrite m m (filter_assocSet_absent m h)

/-- C3 witness: both notification traces and the final single entry, on a
two-listener pool with empty registry. -/
theorem apply_twice_witness :
    (poolAB.Apply mSample).2.map (fun n => (n.listener, n.action))
        = [("A", Action.Created), ("B", Action.Created)] ∧
    ((poolAB.Apply mSample).1.Apply mSample).2.map
        (fun n => (n.listener, n.action))
        = [("A", Action.Updated), ("B", Action.Updated)] ∧
    ((poolAB.Apply mSample).1.Apply mSample).1.manifests.filter
        (fun p => p.1 = mSample.CreateKey)
        = [(mSample.CreateKey, mSample)] := by
  have h := apply_twice poolAB mSample (by decide)
  exact ⟨h.1.trans (by decide), h.2.1.trans (by decide), h.2.2⟩

/-- C4: deleting an absent key mutates nothing and notifies nobody;
deleting a present key removes the entry (`GetByKey` then reports
not-found) and dispatches exactly one `Deleted` notification per
registered listener carrying the pre-removal manifest value. -/
theorem delete_semantics (pool : Pool) (k : ManifestKey) :
    (assocContains pool.manifests k = false → pool.Delete k = (pool, [])) ∧
    (∀ m, assocGet pool.manifests k = some m →
      (pool.Delete k).1.GetByKey k = (none, false) ∧
      (pool.Delete k).2 = pool.listeners.map
        (fun l => ⟨l, Action.Deleted, m, assocDelete pool.manifests k⟩)) := by
  constructor
  · intro h
    simp [Pool.Delete, assocGet_eq_none_of_not_contains h]
  · intro m hm
    refine ⟨?_, ?_⟩
    · simp [Pool.Delete, hm, Pool.GetByKey, assocGet_assocDelete_self]
    · simp [Pool.Delete, hm]

/-- C4 witness: deleting the fixture key from a pool that holds it removes
it and notifies both listeners with `Deleted` and the old value; deleting
it from the empty pool is a no-op. -/
theorem delete_semantics_witness :
    (poolABm.Delete mSample.CreateKey).1.GetByKey mSample.CreateKey
        = (none, false) ∧
    (poolABm.Delete mSample.CreateKey).2.map
        (fun n => (n.listener, n.action, n.manifest))
        = [("A", Action.Deleted, mSample), ("B", Action.Deleted, mSample)] ∧
    poolAB.Delete mSample.CreateKey = (poolAB, []) := by
  have h := delete_semantics poolABm mSample.CreateKey
  have h2 := (h.2 mSample (by decide))
  exact ⟨h2.1, by rw [h2.2]; decide,
    (delete_semantics poolAB mSample.CreateKey).1 (by decide)⟩

/-- C5: the stored and dispatched values of `Apply` are snapshots of the
manifest value at apply time: `GetByKey`'s result for the original key is
the applied value, every dispatched notification carries the applied
value, and neither equals the result of the caller subsequently
reassigning the variable's `Metadata.Name` field. -/
theorem apply_isolation (pool : Pool) (m : Manifest) (s : String)
    (h : s ≠ m.metadata.name) :
    assocGet (pool.Apply m).1.manifests m.CreateKey = some m ∧
    (∀ n ∈ (pool.Apply m).2, n.manifest = m) ∧
    assocGet (pool.Apply m).1.manifests m.CreateKey
      ≠ some (setMetadataName m s) := by
  have hget : assocGet (pool.Apply m).1.manifests m.CreateKey = some m := by
    by_cases hc : assocContains pool.manifests m.CreateKey
    · simp [Pool.Apply, hc, assocGet_assocSet_self]
    · simp only [Pool.Apply, hc, Bool.false_eq_true, if_false]
      exact assocGet_assocSet_self _ _ _
  refine ⟨hget, ?_, ?_⟩
  · intro n hn
    by_cases hc : assocContains pool.manifests m.CreateKey <;>
      · simp only [Pool.Apply, hc, Bool.false_eq_true, if_true, if_false,
          List.mem_map, Pool.applyOne] at hn
        obtain ⟨l, _, rfl⟩ := hn
        rfl
  · rw [hget]
    intro hEq
    have : m.metadata.name = s := by
      have := (Option.some.injEq _ _).mp hEq
      calc m.metadata.name = (setMetadataName m s).metadata.name := by rw [← this]
        _ = s := rfl
    exact h this.symm

/-- C5 witness: after applying the fixture, renaming the caller's variable
does not change what `GetByKey` returns for the original key. -/
theorem apply_isolation_witness :
    assocGet (poolAB.Apply mSample).1.manifests mSample.CreateKey
        = some mSample ∧
    assocGet (poolAB.Apply mSample).1.manifests mSample.CreateKey
        ≠ some (setMetadataName mSample "renamed") := by
  have h := apply_isolation poolAB mSample "renamed" (by decide)
  exact ⟨h.1, h.2.2⟩

/-- C6: in `Apply`, `ApplyPartial` and `Delete`, the registry mutation is
performed before any notification is dispatched: every dispatched
notification's visible pool contents equal the post-mutation registry, so
the listener already sees the applied value (resp. the removed key). -/
theorem mutation_before_dispatch (pool : Pool) (m : Manifest)
    (ex : Listener) (k : ManifestKey) :
    (∀ n ∈ (pool.Apply m).2,
      n.poolAtDispatch = (pool.Apply m).1.manifests ∧
      assocGet n.poolAtDispatch m.CreateKey = some m) ∧
    (∀ n ∈ (pool.ApplyPartial ex m).2,
      n.poolAtDispatch = (pool.ApplyPartial ex m).1.manifests ∧
      assocGet n.poolAtDispatch m.CreateKey = some m) ∧
    (∀ n ∈ (pool.Delete k).2,
      n.poolAtDispatch = (pool.Delete k).1.manifests ∧
      assocGet n.poolAtDispatch k = none) := by
  refine ⟨?_, ?_, ?_⟩
  · intro n hn
    by_cases hc : assocContains pool.manifests m.CreateKey <;>
      · simp only [Pool.Apply, hc, Bool.false_eq_true, if_true, if_false,
          List.mem_map, Pool.applyOne] at hn ⊢
        obtain ⟨l, _, rfl⟩ := hn
        exact ⟨rfl, assocGet_assocSet_self _ _ _⟩
  · intro n hn
    by_cases hc : assocContains pool.manifests m.CreateKey <;>
      · simp only [Pool.ApplyPartial, hc, Bool.false_eq_true, if_true, if_false,
          List.mem_map, Pool.applyOne] at hn ⊢
        obtain ⟨l, _, rfl⟩ := hn
        exact ⟨rfl, assocGet_assocSet_self _ _ _⟩
  · intro n hn
    rcases hg : assocGet pool.manifests k with _ | m0
    · simp [Pool.Delete, hg] at hn
    · simp only [Pool.Delete, hg, List.mem_map] at hn ⊢
      obtain ⟨l, _, rfl⟩ := hn
      exact ⟨rfl, assocGet_assocDelete_self _ _⟩

/-- C6 witness: the one concrete `Deleted` notification sees a registry
without the key, and the concrete `Created` notifications see the stored
value. -/
theorem mutation_before_dispatch_witness :
    (∀ n ∈ (poolAB.Apply mSample).2,
      assocGet n.poolAtDispatch mSample.CreateKey = some mSample) ∧
    (∀ n ∈ (poolABm.Delete mSample.CreateKey).2,
      assocGet n.poolAtDispatch mSample.CreateKey = none) :=
  ⟨fun n hn =>
    ((mutation_before_dispatch poolAB mSample "A" mSample.CreateKey).1 n hn).2,
   fun n hn =>
    ((mutation_before_dispatch poolABm mSample "A" mSample.CreateKey).2.2 n hn).2⟩

/-- C7: `ApplySilent` performs the same overwrite-or-insert storage
transition as `Apply` (first conjunct), dispatches no notification at all
(second conjunct), and the stored key counts as present for a later
`Apply` of a same-key manifest, which therefore dispatches `Updated`, not
`Created`, to every listener (third conjunct). -/
theorem applySilent_semantics (pool : Pool) (m m2 : Manifest)
    (hk : m2.CreateKey = m.CreateKey) :
    (pool.ApplySilent m).1.manifests = (pool.Apply m).1.manifests ∧
    (pool.ApplySilent m).2 = [] ∧
    ((pool.ApplySilent m).1.Apply m2).2.map (fun n => (n.listener, n.action))
      = pool.listeners.map (fun l => (l, Action.Updated)) := by
  have hc : assocContains (assocSet pool.manifests m.CreateKey m) m2.CreateKey
      = true := by
    rw [hk]
    exact assocContains_assocSet_self _ _ _
  refine ⟨?_, rfl, ?_⟩
  · by_cases hc0 : assocContains pool.manifests m.CreateKey <;>
      simp [Pool.ApplySilent, Pool.Apply, hc0]
  · simp [Pool.Apply, hc, Pool.applyOne, Pool.ApplySilent]

/-- C7 witness: silently applying the fixture then applying a same-key
manifest yields `Updated` notifications for both listeners. -/
theorem applySilent_semantics_witness :
    (poolAB.ApplySilent mSample).2 = [] ∧
    ((poolAB.ApplySilent mSample).1.Apply mSample).2.map
        (fun n => (n.listener, n.action))
      = [("A", Action.Updated), ("B", Action.Updated)] := by
  have h := applySilent_semantics poolAB mSample mSample rfl
  exact ⟨h.2.1, h.2.2.trans (by decide)⟩

/-- C10: `Apply`, `ApplyPartial`, `ApplySilent` and `Delete` leave the
pool's listener list unchanged; `Listen` changes only the listener list,
and only by appending the one new listener at the end.  (`GetByKey` and
`Find`, embedded at `Pool → _` value-returning types mirroring their
read-only bodies, touch no pool state, and `Wait` only joins the
dispatch wait-group.) -/
theorem listeners_frame (pool : Pool) (m : Manifest)
    (ex l : Listener) (k : ManifestKey) :
    (pool.Apply m).1.listeners = pool.listeners ∧
    (pool.ApplyPartial ex m).1.listeners = pool.listeners ∧
    (pool.ApplySilent m).1.listeners = pool.listeners ∧
    (pool.Delete k).1.listeners = pool.listeners ∧
    (pool.Listen l).listeners = pool.listeners ++ [l] ∧
    (pool.Listen l).manifests = pool.manifests := by
  refine ⟨?_, ?_, rfl, ?_, rfl, rfl⟩
  · by_cases hc : assocContains pool.manifests m.CreateKey <;> simp [Pool.Apply, hc]
  · by_cases hc : assocContains pool.manifests m.CreateKey <;>
      simp [Pool.ApplyPartial, hc]
  · rcases hg : assocGet pool.manifests k with _ | m0 <;> simp [Pool.Delete, hg]

end Manifesto
